import Mathlib

/-!
Shallow embedding of the python-gitlab v4 object layer
(`gitlab/v4/objects/{files,jobs,container_registry,ldap,milestones}.py`)
and of the small framework surface those files use (the `gitlab.utils.EncodedId`
URL encoder, the `gitlab.exceptions.on_http_error` decorator, attribute
validation and the HTTP client methods), together with proofs about the
requests each operation issues and the values it returns.

Python dictionaries are embedded as association lists with unique keys
(`Attrs`), JSON bodies likewise; every manager or object method becomes a
Lean function that returns the list of HTTP requests it issued along with
its result (`Except` models raised exceptions).
-/

set_option autoImplicit false

namespace Spec2Proof

/-- A Python `dict[str, str]`-like attribute record, as an association list.
Dictionary keys are unique (the dictionary operations below preserve this). -/
abbrev Attrs := List (String × String)

/-- Lookup in an attribute dictionary, like `d[k]` / `k in d`. -/
def dictGet : Attrs → String → Option String
  | [], _ => none
  | kv :: rest, k => if kv.1 == k then some kv.2 else dictGet rest k

/-- The key set of an attribute dictionary. -/
def keys (d : Attrs) : List String := d.map Prod.fst

/-- Python `d[k] = v`: replace the entry when the key is present, append
otherwise. -/
def dictSet (d : Attrs) (k v : String) : Attrs :=
  if d.any (fun kv => kv.1 == k) then
    d.map (fun kv => if kv.1 == k then (k, v) else kv)
  else d ++ [(k, v)]

/-- Python `d.update(entries)`. -/
def dictUpdate (d : Attrs) (entries : Attrs) : Attrs :=
  entries.foldl (fun acc kv => dictSet acc kv.1 kv.2) d

/-- Python `d.setdefault(k, v)`. -/
def dictSetdefault (d : Attrs) (k v : String) : Attrs :=
  if d.any (fun kv => kv.1 == k) then d else d ++ [(k, v)]

/-- Python `d.pop(k)` (the removal part; on a dictionary with unique keys
this removes exactly the entry for `k`). -/
def dictErase (d : Attrs) (k : String) : Attrs :=
  d.filter (fun kv => kv.1 != k)

/-- Concatenation of the images of a list-valued map (`flat_map`). -/
def concatMap {α β : Type} (f : α → List β) : List α → List β
  | [] => []
  | a :: rest => f a ++ concatMap f rest

/-! ## URL encoding: model of `gitlab.utils.EncodedId` -/

/-- An RFC 3986 unreserved character: kept as-is by percent-encoding. -/
def isUnreserved (c : Char) : Bool :=
  c.isAlphanum || c == '-' || c == '.' || c == '_' || c == '~'

/-- Uppercase hexadecimal digit for a value below 16. -/
def hexUpper (n : Nat) : Char :=
  if n < 10 then Char.ofNat (48 + n) else Char.ofNat (55 + n)

/-- The UTF-8 encoding of a character, as a list of byte values. -/
def utf8Bytes (c : Char) : List Nat :=
  let n := c.toNat
  if n < 128 then [n]
  else if n < 2048 then [192 + n / 64, 128 + n % 64]
  else if n < 65536 then [224 + n / 4096, 128 + (n / 64) % 64, 128 + n % 64]
  else [240 + n / 262144, 128 + (n / 4096) % 64, 128 + (n / 64) % 64, 128 + n % 64]

/-- Percent-encoding of one byte: `%XX` with uppercase hex digits. -/
def percentByte (b : Nat) : List Char :=
  ['%', hexUpper (b / 16), hexUpper (b % 16)]

/-- Percent-encoding of one character: unreserved characters pass through,
every other character is expanded to the percent-encoding of its UTF-8 bytes. -/
def encodeChar (c : Char) : List Char :=
  if isUnreserved c then [c] else concatMap percentByte (utf8Bytes c)

/-- Modelled from the spec: `gitlab.utils.EncodedId` (not under `src/`), the
URL encoder applied to path components, per the external-interface section
(paths such as `GET /projects/{id}/repository/files/{path}/raw` carry the
file path URL-encoded in the path). It percent-encodes with no safe
characters, like `urllib.parse.quote(value, safe="")`. -/
def encodedId (s : String) : String :=
  ⟨concatMap encodeChar s.data⟩

/-! ## HTTP layer model -/

/-- An HTTP method. -/
inductive Verb where
  | GET
  | POST
  | PUT
  | DELETE
  | HEAD
deriving DecidableEq, Repr

/-- One HTTP request as assembled by the client methods: the verb, the path,
the optional `query_data` dictionary, the optional `post_data` body and the
remaining keyword options forwarded by the caller (e.g. `sudo`). -/
structure HttpRequest where
  verb : Verb
  path : String
  queryData : Option Attrs
  postData : Option Attrs
  kwargs : Attrs
deriving DecidableEq, Repr

/-- Modelled from the spec: the `GitlabHttpError` raised by the HTTP client
(out of scope per the spec) for an unexpected HTTP status, carrying the
status code and the response body. -/
structure HttpError where
  errorMessage : String
  responseCode : Nat
  responseBody : String
deriving DecidableEq, Repr

/-- The operation-specific error classes of `gitlab.exceptions` named by the
decorators in the source files. -/
inductive ExcKind where
  | GitlabCreateError
  | GitlabUpdateError
  | GitlabDeleteError
  | GitlabGetError
  | GitlabHeadError
  | GitlabListError
  | GitlabJobCancelError
  | GitlabJobRetryError
  | GitlabJobPlayError
  | GitlabJobEraseError
deriving DecidableEq, Repr

/-- An exception escaping an operation at this layer: either a translated
HTTP error of a specific kind or a local validation failure. -/
inductive OpError where
  | http (kind : ExcKind) (errorMessage : String) (responseCode : Nat)
      (responseBody : String)
  | missingAttributes (missing : List String)
  | keyError (key : String)
deriving DecidableEq, Repr

/-- Modelled from the spec: the `gitlab.exceptions.on_http_error(error)`
decorator (not under `src/`): "an unexpected HTTP status is translated to
one of a small set of operation-specific error kinds ..., carrying the HTTP
status and response body". A successful result passes through; an
`HttpError` becomes the decorator's error kind with the same message,
status and body. -/
def onHttpError {α : Type} (kind : ExcKind) : Except HttpError α → Except OpError α
  | .ok a => .ok a
  | .error e => .error (.http kind e.errorMessage e.responseCode e.responseBody)

/-- Modelled from the spec: the lazy `GitlabList` pagination generator
returned by `http_list` when it does not return a plain list. -/
structure GitlabList where
  items : List Attrs
deriving DecidableEq, Repr

/-- The shape of an `http_list` result: a plain Python list of dictionaries,
or a `GitlabList` generator. -/
inductive ListResult where
  | asList (items : List Attrs)
  | asGen (gen : GitlabList)
deriving DecidableEq, Repr

/-- A dynamically-typed Python value as returned by the operations under
study: `None`, a parsed JSON dictionary or list of dictionaries, raw bytes,
response headers, an instance of a managed `RESTObject` subclass (named by
its class), a list of such instances, a `RESTObjectList` wrapper, or a raw
`GitlabList` generator. -/
inductive PyValue where
  | pyNone
  | dict (d : Attrs)
  | dictList (l : List Attrs)
  | bytes (b : List Nat)
  | headers (h : Attrs)
  | restObj (cls : String) (attrs : Attrs)
  | restObjList (cls : String) (objs : List Attrs)
  | restObjectGen (cls : String) (gen : GitlabList)
  | gen (g : GitlabList)
deriving DecidableEq, Repr

/-- Whether a returned value is an instance of a managed object class or a
list/wrapper of such instances (as opposed to bare parsed JSON). -/
def PyValue.isManagedWrapper : PyValue → Bool
  | .restObj _ _ => true
  | .restObjList _ _ => true
  | .restObjectGen _ _ => true
  | _ => false

/-- Modelled from the spec: the HTTP client (out of scope per the spec
system overview); it answers each request with parsed JSON, raw bytes,
headers or a list result, or reports an `HttpError` for an unexpected
status. `perPage` is the client-wide `per_page` setting. -/
structure Gitlab where
  perPage : Option Nat
  getJsonResponse : HttpRequest → Except HttpError Attrs
  getRawResponse : HttpRequest → Except HttpError (List Nat)
  postResponse : HttpRequest → Except HttpError Attrs
  putResponse : HttpRequest → Except HttpError Attrs
  deleteResponse : HttpRequest → Except HttpError Unit
  headResponse : HttpRequest → Except HttpError Attrs
  listResponse : HttpRequest → Bool → Except HttpError ListResult

/-- Modelled from the spec: `Gitlab.http_get` for JSON responses; "every
method ... issues a single HTTP call", so exactly one request is issued. -/
def Gitlab.http_get (gl : Gitlab) (path : String) (queryData : Option Attrs)
    (kwargs : Attrs) : List HttpRequest × Except HttpError Attrs :=
  let req : HttpRequest := ⟨.GET, path, queryData, none, kwargs⟩
  ([req], gl.getJsonResponse req)

/-- Modelled from the spec: `Gitlab.http_get` with `raw=True` (raw body). -/
def Gitlab.http_get_raw (gl : Gitlab) (path : String) (queryData : Option Attrs)
    (kwargs : Attrs) : List HttpRequest × Except HttpError (List Nat) :=
  let req : HttpRequest := ⟨.GET, path, queryData, none, kwargs⟩
  ([req], gl.getRawResponse req)

/-- Modelled from the spec: `Gitlab.http_post`. -/
def Gitlab.http_post (gl : Gitlab) (path : String) (postData : Option Attrs)
    (kwargs : Attrs) : List HttpRequest × Except HttpError Attrs :=
  let req : HttpRequest := ⟨.POST, path, none, postData, kwargs⟩
  ([req], gl.postResponse req)

/-- Modelled from the spec: `Gitlab.http_put`. -/
def Gitlab.http_put (gl : Gitlab) (path : String) (postData : Option Attrs)
    (kwargs : Attrs) : List HttpRequest × Except HttpError Attrs :=
  let req : HttpRequest := ⟨.PUT, path, none, postData, kwargs⟩
  ([req], gl.putResponse req)

/-- Modelled from the spec: `Gitlab.http_delete`. -/
def Gitlab.http_delete (gl : Gitlab) (path : String) (queryData : Option Attrs)
    (kwargs : Attrs) : List HttpRequest × Except HttpError Unit :=
  let req : HttpRequest := ⟨.DELETE, path, queryData, none, kwargs⟩
  ([req], gl.deleteResponse req)

/-- Modelled from the spec: `Gitlab.http_head`. -/
def Gitlab.http_head (gl : Gitlab) (path : String) (queryData : Option Attrs)
    (kwargs : Attrs) : List HttpRequest × Except HttpError Attrs :=
  let req : HttpRequest := ⟨.HEAD, path, queryData, none, kwargs⟩
  ([req], gl.headResponse req)

/-- Modelled from the spec: `Gitlab.http_list`, returning either a plain
list or a lazy generator depending on pagination; the `iterator` flag is
forwarded. -/
def Gitlab.http_list (gl : Gitlab) (path : String) (queryData : Option Attrs)
    (iterator : Bool) (kwargs : Attrs) :
    List HttpRequest × Except HttpError ListResult :=
  let req : HttpRequest := ⟨.GET, path, queryData, none, kwargs⟩
  ([req], gl.listResponse req iterator)

/-! ## Base64: model of Python `base64.b64encode` / `base64.b64decode` -/

/-- The standard base64 alphabet. -/
def b64alphabetList : List Char :=
  "ABCDEFGHIJKLMNOPQRSTUVWXYZabcdefghijklmnopqrstuvwxyz0123456789+/".data

/-- The base64 character for a sextet value below 64. -/
def b64char (n : Nat) : Char := b64alphabetList.getD n '?'

/-- Position search in the alphabet, used to invert `b64char`. -/
def b64indexAux (c : Char) : List Char → Nat → Option Nat
  | [], _ => none
  | a :: rest, i => if a == c then some i else b64indexAux c rest (i + 1)

/-- The sextet value of a base64 character, `none` for any other character. -/
def b64index (c : Char) : Option Nat := b64indexAux c b64alphabetList 0

/-- Model of Python `base64.b64encode` over byte values: three input bytes
become four alphabet characters, a final group of one or two bytes is
padded with `=`. -/
def b64encodeBytes : List Nat → List Char
  | [] => []
  | [a] => [b64char (a / 4), b64char (a % 4 * 16), '=', '=']
  | [a, b] =>
      [b64char (a / 4), b64char (a % 4 * 16 + b / 16), b64char (b % 16 * 4), '=']
  | a :: b :: c :: rest =>
      b64char (a / 4) :: b64char (a % 4 * 16 + b / 16) ::
        b64char (b % 16 * 4 + c / 64) :: b64char (c % 64) :: b64encodeBytes rest

/-- A character kept by Python `b64decode` (default `validate=False`
discards characters outside the alphabet and `=`). -/
def keepB64 (c : Char) : Bool := b64alphabetList.contains c || c == '='

/-- Model of the group decoder of Python `base64.b64decode`: after
discarding, the character count must be a multiple of four; `=` padding is
only accepted at the very end and determines how many bytes the final group
contributes. -/
def b64decodeGroups : List Char → Option (List Nat)
  | [] => some []
  | c0 :: c1 :: c2 :: c3 :: rest => do
      let s0 ← b64index c0
      let s1 ← b64index c1
      if c2 = '=' then
        if c3 = '=' ∧ rest = [] then pure [s0 * 4 + s1 / 16] else none
      else do
        let s2 ← b64index c2
        if c3 = '=' then
          if rest = [] then pure [s0 * 4 + s1 / 16, s1 % 16 * 16 + s2 / 4]
          else none
        else do
          let s3 ← b64index c3
          let tail ← b64decodeGroups rest
          pure ((s0 * 4 + s1 / 16) :: (s1 % 16 * 16 + s2 / 4) ::
            (s2 % 4 * 64 + s3) :: tail)
  | _ => none

/-- Model of Python `base64.b64decode` on a string: discard foreign
characters, then decode in groups of four; `none` models the raised
`binascii.Error`. -/
def b64decodeStr (s : String) : Option (List Nat) :=
  b64decodeGroups (s.data.filter keepB64)

/-- Model of Python `base64.b64encode` producing an ASCII string. -/
def b64encodeStr (b : List Nat) : String := ⟨b64encodeBytes b⟩

/-! ## Managers, objects and their operations -/

/-- The required/optional attribute specification `gitlab.types.RequiredOptional`. -/
structure RequiredOptional where
  required : List String
  optional : List String

/-- Modelled from the spec: `RequiredOptional.validate_attrs` (not under
`src/`): "optionally validate required keys present"; the attributes of
`required` that are absent from the data, in order. The operation raises
when this list is nonempty, before any HTTP request. -/
def RequiredOptional.missingAttrs (ro : RequiredOptional) (data : Attrs) :
    List String :=
  ro.required.filter (fun k => !(data.any (fun kv => kv.1 == k)))

/-- The outcome of a manager operation: the HTTP requests issued (in order)
and the returned value or raised error. -/
structure OpOutcome where
  requests : List HttpRequest
  result : Except OpError PyValue

/-- `ProjectFileManager`: `_path = "/projects/{project_id}/repository/files"`
with `project_id` taken from the parent project. -/
structure ProjectFileManager where
  gitlab : Gitlab
  projectId : String

/-- The computed manager path (the `_path` template with the parent id
substituted). -/
def ProjectFileManager.path (m : ProjectFileManager) : String :=
  "/projects/" ++ m.projectId ++ "/repository/files"

/-- `ProjectFileManager._create_attrs`. -/
def projectFileCreateAttrs : RequiredOptional :=
  ⟨["file_path", "branch", "content", "commit_message"],
   ["encoding", "author_email", "author_name", "execute_filemode", "start_branch"]⟩

/-- `ProjectFileManager._update_attrs`. -/
def projectFileUpdateAttrs : RequiredOptional :=
  ⟨["file_path", "branch", "content", "commit_message"],
   ["encoding", "author_email", "author_name", "execute_filemode",
    "start_branch", "last_commit_id"]⟩

/-- `ProjectFileManager.get`: encode the file path, `GET` the file's URL
with `ref` as a keyword option, and wrap the server dictionary in a
`ProjectFile` instance. Decorated with `on_http_error(GitlabGetError)`. -/
def ProjectFileManager.get (mgr : ProjectFileManager) (file_path ref : String)
    (kwargs : Attrs) : OpOutcome :=
  let fp := encodedId file_path
  let path := mgr.path ++ "/" ++ fp
  let rr := mgr.gitlab.http_get path none (("ref", ref) :: kwargs)
  ⟨rr.1, (onHttpError .GitlabGetError rr.2).map (fun d => .restObj "ProjectFile" d)⟩

/-- `ProjectFileManager.head`: like `get` but `HEAD`, returning the response
headers. Decorated with `on_http_error(GitlabHeadError)`. -/
def ProjectFileManager.head (mgr : ProjectFileManager) (file_path ref : String)
    (kwargs : Attrs) : OpOutcome :=
  let fp := encodedId file_path
  let path := mgr.path ++ "/" ++ fp
  let rr := mgr.gitlab.http_head path none (("ref", ref) :: kwargs)
  ⟨rr.1, (onHttpError .GitlabHeadError rr.2).map (fun h => .headers h)⟩

/-- `ProjectFileManager.create`: validate `_create_attrs` against `data`,
pop `file_path` out of the body, embed it URL-encoded in the path, `POST`
the remaining data and wrap the response in a `ProjectFile`. Decorated with
`on_http_error(GitlabCreateError)`. -/
def ProjectFileManager.create (mgr : ProjectFileManager) (data : Attrs)
    (kwargs : Attrs) : OpOutcome :=
  let missing := projectFileCreateAttrs.missingAttrs data
  if missing ≠ [] then ⟨[], .error (.missingAttributes missing)⟩
  else
    match dictGet data "file_path" with
    | none => ⟨[], .error (.keyError "file_path")⟩
    | some fp0 =>
      let newData := dictErase data "file_path"
      let fp := encodedId fp0
      let path := mgr.path ++ "/" ++ fp
      let rr := mgr.gitlab.http_post path (some newData) kwargs
      ⟨rr.1, (onHttpError .GitlabCreateError rr.2).map
        (fun d => .restObj "ProjectFile" d)⟩

/-- `ProjectFileManager.update`: copy `new_data` (`None` becomes `{}`),
force `file_path` (URL-encoded) into the body, validate `_update_attrs`,
`PUT`, and return the parsed JSON dictionary (not a `RESTObject`).
Decorated with `on_http_error(GitlabUpdateError)`. -/
def ProjectFileManager.update (mgr : ProjectFileManager) (file_path : String)
    (newData : Option Attrs) (kwargs : Attrs) : OpOutcome :=
  let data0 := newData.getD []
  let fp := encodedId file_path
  let data := dictSet data0 "file_path" fp
  let path := mgr.path ++ "/" ++ fp
  let missing := projectFileUpdateAttrs.missingAttrs data
  if missing ≠ [] then ⟨[], .error (.missingAttributes missing)⟩
  else
    let rr := mgr.gitlab.http_put path (some data) kwargs
    ⟨rr.1, (onHttpError .GitlabUpdateError rr.2).map (fun d => .dict d)⟩

/-- `ProjectFileManager.delete`: `DELETE` the file's URL with `branch` and
`commit_message` as query data. Decorated with
`on_http_error(GitlabDeleteError)`. -/
def ProjectFileManager.delete (mgr : ProjectFileManager)
    (file_path branch commit_message : String) (kwargs : Attrs) : OpOutcome :=
  let fp := encodedId file_path
  let path := mgr.path ++ "/" ++ fp
  let data : Attrs := [("branch", branch), ("commit_message", commit_message)]
  let rr := mgr.gitlab.http_delete path (some data) kwargs
  ⟨rr.1, (onHttpError .GitlabDeleteError rr.2).map (fun _ => .pyNone)⟩

/-- `ProjectFileManager.raw`: `GET` the `/raw` URL of the file with
`query_data = {"ref": ref}` when `ref` is given and `None` otherwise, and
return the raw body (the streaming options only affect local handling of
the response, which the spec places in the HTTP transport, out of scope).
Decorated with `on_http_error(GitlabGetError)`. -/
def ProjectFileManager.raw (mgr : ProjectFileManager) (file_path : String)
    (ref : Option String) (kwargs : Attrs) : OpOutcome :=
  let fp := encodedId file_path
  let path := mgr.path ++ "/" ++ fp ++ "/raw"
  let queryData := ref.map (fun r => [("ref", r)])
  let rr := mgr.gitlab.http_get_raw path queryData kwargs
  ⟨rr.1, (onHttpError .GitlabGetError rr.2).map (fun b => .bytes b)⟩

/-- `ProjectFileManager.blame`: list request on the `/blame` URL of the file
with `query_data = {"ref": ref}`. Decorated with
`on_http_error(GitlabListError)`. -/
def ProjectFileManager.blame (mgr : ProjectFileManager) (file_path ref : String)
    (kwargs : Attrs) : OpOutcome :=
  let fp := encodedId file_path
  let path := mgr.path ++ "/" ++ fp ++ "/blame"
  let rr := mgr.gitlab.http_list path (some [("ref", ref)]) false kwargs
  ⟨rr.1, (onHttpError .GitlabListError rr.2).map (fun lr =>
    match lr with
    | .asList items => .dictList items
    | .asGen g => .gen g)⟩

/-- A `ProjectFile` object: a `RESTObject` whose attribute dictionary came
from a server response; `decode()` reads its `content` attribute. -/
structure ProjectFile where
  attrs : Attrs
deriving DecidableEq, Repr

/-- `ProjectFile.decode`: return the base64 decoding of the `content`
attribute; the object itself is returned unchanged (the method only reads
`self.content`). A missing `content` or an invalid base64 payload models
the raised Python exception as `none`. -/
def ProjectFile.decode (pf : ProjectFile) : Option (List Nat) × ProjectFile :=
  ((dictGet pf.attrs "content").bind b64decodeStr, pf)

/-- `ProjectJobManager`: `_path = "/projects/{project_id}/jobs"`. -/
structure ProjectJobManager where
  gitlab : Gitlab
  projectId : String

/-- The computed manager path. -/
def ProjectJobManager.path (m : ProjectJobManager) : String :=
  "/projects/" ++ m.projectId ++ "/jobs"

/-- A `ProjectJob` object with its manager and cached attribute dictionary. -/
structure ProjectJob where
  manager : ProjectJobManager
  attrs : Attrs

/-- The job's `encoded_id` as interpolated into an f-string path: the
URL-encoded `id` attribute, or the text `None` when the attribute is absent
(Python renders the `None` id literally). -/
def ProjectJob.encodedIdStr (job : ProjectJob) : String :=
  match dictGet job.attrs "id" with
  | some v => encodedId v
  | none => "None"

/-- The outcome of a `ProjectJob` method: requests issued, returned value
or error, and the (possibly updated) object. -/
structure JobOutcome where
  requests : List HttpRequest
  result : Except OpError PyValue
  self : ProjectJob

/-- `ProjectJob.cancel`: `POST` to `{manager.path}/{encoded_id}/cancel` and
return the parsed JSON dictionary; the object's attributes are not touched.
Decorated with `on_http_error(GitlabJobCancelError)`. -/
def ProjectJob.cancel (job : ProjectJob) (kwargs : Attrs) : JobOutcome :=
  let path := job.manager.path ++ "/" ++ job.encodedIdStr ++ "/cancel"
  let rr := job.manager.gitlab.http_post path none kwargs
  ⟨rr.1, (onHttpError .GitlabJobCancelError rr.2).map (fun d => .dict d), job⟩

/-- `ProjectJob.retry`: `POST` to `{manager.path}/{encoded_id}/retry` and
return the parsed JSON dictionary; the object's attributes are not touched.
Decorated with `on_http_error(GitlabJobRetryError)`. -/
def ProjectJob.retry (job : ProjectJob) (kwargs : Attrs) : JobOutcome :=
  let path := job.manager.path ++ "/" ++ job.encodedIdStr ++ "/retry"
  let rr := job.manager.gitlab.http_post path none kwargs
  ⟨rr.1, (onHttpError .GitlabJobRetryError rr.2).map (fun d => .dict d), job⟩

/-- `ProjectJob.play`: `POST` to `{manager.path}/{encoded_id}/play`, then
`self._update_attrs(result)` replaces the object's cached attributes with
the response body; the method returns `None`. Decorated with
`on_http_error(GitlabJobPlayError)`. -/
def ProjectJob.play (job : ProjectJob) (kwargs : Attrs) : JobOutcome :=
  let path := job.manager.path ++ "/" ++ job.encodedIdStr ++ "/play"
  let rr := job.manager.gitlab.http_post path none kwargs
  match onHttpError .GitlabJobPlayError rr.2 with
  | .ok d => ⟨rr.1, .ok .pyNone, { job with attrs := d }⟩
  | .error e => ⟨rr.1, .error e, job⟩

/-- `ProjectRegistryTagManager`:
`_path = "/projects/{project_id}/registry/repositories/{repository_id}/tags"`. -/
structure ProjectRegistryTagManager where
  gitlab : Gitlab
  projectId : String
  repositoryId : String

/-- The computed manager path. -/
def ProjectRegistryTagManager.path (m : ProjectRegistryTagManager) : String :=
  "/projects/" ++ m.projectId ++ "/registry/repositories/" ++
    m.repositoryId ++ "/tags"

/-- The `valid_attrs` whitelist of `delete_in_bulk`. -/
def bulkDeleteValidAttrs : List String := ["keep_n", "name_regex_keep", "older_than"]

/-- `ProjectRegistryTagManager.delete_in_bulk`: build
`data = {"name_regex_delete": ...}` updated with the keyword options whose
key is in `valid_attrs`, and `DELETE` the manager path with that query
data (the keyword options are also forwarded to the client). Decorated
with `on_http_error(GitlabDeleteError)`. -/
def ProjectRegistryTagManager.delete_in_bulk (mgr : ProjectRegistryTagManager)
    (name_regex_delete : String) (kwargs : Attrs) : OpOutcome :=
  let data := dictUpdate [("name_regex_delete", name_regex_delete)]
    (kwargs.filter (fun kv => bulkDeleteValidAttrs.contains kv.1))
  let rr := mgr.gitlab.http_delete mgr.path (some data) kwargs
  ⟨rr.1, (onHttpError .GitlabDeleteError rr.2).map (fun _ => .pyNone)⟩

/-- `LDAPGroupManager`: `_path = "/ldap/groups"`, `_obj_cls = LDAPGroup`. -/
structure LDAPGroupManager where
  gitlab : Gitlab

/-- The static `_path` of the LDAP group manager. -/
def LDAPGroupManager.staticPath : String := "/ldap/groups"

/-- The `data` of `LDAPGroupManager.list`: a copy of the keyword options
with `per_page` defaulted to the client's setting when that setting is
truthy (`if self.gitlab.per_page: data.setdefault(...)`). -/
def LDAPGroupManager.listData (mgr : LDAPGroupManager) (kwargs : Attrs) : Attrs :=
  match mgr.gitlab.perPage with
  | some n => if n ≠ 0 then dictSetdefault kwargs "per_page" (toString n) else kwargs
  | none => kwargs

/-- `LDAPGroupManager.list`: build `data` via `listData`, pick the provider
path when a `provider` option is present, then list; a plain list answer
is mapped to `LDAPGroup` instances, anything else is wrapped in a
`RESTObjectList`. Decorated with `on_http_error(GitlabListError)`. -/
def LDAPGroupManager.list (mgr : LDAPGroupManager) (iterator : Bool)
    (kwargs : Attrs) : OpOutcome :=
  let data := mgr.listData kwargs
  let path :=
    match dictGet data "provider" with
    | some p => "/ldap/" ++ p ++ "/groups"
    | none => LDAPGroupManager.staticPath
  let rr := mgr.gitlab.http_list path none iterator data
  ⟨rr.1, (onHttpError .GitlabListError rr.2).map (fun lr =>
    match lr with
    | .asList items => .restObjList "LDAPGroup" items
    | .asGen g => .restObjectGen "LDAPGroup" g)⟩

/-! ## Dictionary lemmas -/

theorem dictGet_nil (k : String) : dictGet [] k = none := rfl

theorem dictGet_cons (kv : String × String) (rest : Attrs) (k : String) :
    dictGet (kv :: rest) k = if kv.1 == k then some kv.2 else dictGet rest k := rfl

theorem dictGet_eq_none_iff (d : Attrs) (k : String) :
    dictGet d k = none ↔ ∀ kv ∈ d, kv.1 ≠ k := by
  induction d with
  | nil => simp [dictGet]
  | cons a rest ih =>
      rw [dictGet_cons]
      by_cases h : a.1 = k
      · simp [h]
      · rw [if_neg (by simpa using h)]
        simp only [List.mem_cons]
        constructor
        · intro hn kv hkv
          rcases hkv with rfl | hkv
          · exact h
          · exact (ih.mp hn) kv hkv
        · intro hall
          exact ih.mpr (fun kv hkv => hall kv (Or.inr hkv))

theorem any_key_eq_false_iff (d : Attrs) (k : String) :
    d.any (fun kv => kv.1 == k) = false ↔ ∀ kv ∈ d, kv.1 ≠ k := by
  simp [List.any_eq_true]

theorem mem_dictSet (d : Attrs) (k v : String) (kv : String × String)
    (h : kv ∈ dictSet d k v) : kv = (k, v) ∨ (kv ∈ d ∧ kv.1 ≠ k) := by
  unfold dictSet at h
  split at h
  · rcases List.mem_map.mp h with ⟨a, ha, hkv⟩
    by_cases hak : a.1 = k
    · left
      simpa [hak] using hkv.symm
    · right
      simp only [beq_iff_eq, hak, if_neg, if_false] at hkv
      exact hkv ▸ ⟨ha, hak⟩
  · rename_i hany
    rcases List.mem_append.mp h with hd | hone
    · right
      refine ⟨hd, ?_⟩
      exact ((any_key_eq_false_iff d k).mp (Bool.not_eq_true _ ▸ (by simpa using hany))) kv hd
    · left
      simpa using hone

theorem self_mem_dictSet (d : Attrs) (k v : String) : (k, v) ∈ dictSet d k v := by
  unfold dictSet
  split
  · rename_i hany
    rcases List.any_eq_true.mp hany with ⟨a, ha, hak⟩
    exact List.mem_map.mpr ⟨a, ha, by simp [beq_iff_eq.mp hak]⟩
  · exact List.mem_append.mpr (Or.inr (by simp))

theorem mem_dictSet_of_ne (d : Attrs) (k v : String) (kv : String × String)
    (h : kv ∈ d) (hne : kv.1 ≠ k) : kv ∈ dictSet d k v := by
  unfold dictSet
  split
  · exact List.mem_map.mpr ⟨kv, h, by simp [hne]⟩
  · exact List.mem_append.mpr (Or.inl h)

theorem dictGet_map_set (d : Attrs) (k v k' : String) (h : k' ≠ k) :
    dictGet (d.map (fun kv => if kv.1 == k then (k, v) else kv)) k' = dictGet d k' := by
  induction d with
  | nil => rfl
  | cons a rest ih =>
      by_cases hak : a.1 = k
      · have h1 : (if a.1 == k then (k, v) else a) = (k, v) := by simp [hak]
        rw [List.map_cons, h1, dictGet_cons, dictGet_cons]
        rw [if_neg (by simpa using Ne.symm h), if_neg (by simp [hak]; exact Ne.symm h), ih]
      · have h1 : (if a.1 == k then (k, v) else a) = a := by simp [hak]
        rw [List.map_cons, h1, dictGet_cons, dictGet_cons, ih]

theorem dictGet_append_of_none (d e : Attrs) (k : String)
    (h : dictGet d k = none) : dictGet (d ++ e) k = dictGet e k := by
  induction d with
  | nil => rfl
  | cons a rest ih =>
      rw [dictGet_cons] at h
      by_cases hak : a.1 = k
      · simp [hak] at h
      · rw [List.cons_append, dictGet_cons, if_neg (by simpa using hak)]
        rw [if_neg (by simpa using hak)] at h
        exact ih h

theorem dictGet_append_of_some (d e : Attrs) (k v : String)
    (h : dictGet d k = some v) : dictGet (d ++ e) k = some v := by
  induction d with
  | nil => simp [dictGet] at h
  | cons a rest ih =>
      rw [dictGet_cons] at h
      by_cases hak : a.1 = k
      · rw [if_pos (by simpa using hak)] at h
        rw [List.cons_append, dictGet_cons, if_pos (by simpa using hak)]
        exact h
      · rw [if_neg (by simpa using hak)] at h
        rw [List.cons_append, dictGet_cons, if_neg (by simpa using hak)]
        exact ih h

theorem dictGet_dictSet_ne (d : Attrs) (k v k' : String) (h : k' ≠ k) :
    dictGet (dictSet d k v) k' = dictGet d k' := by
  unfold dictSet
  split
  · exact dictGet_map_set d k v k' h
  · cases hd : dictGet d k' with
    | some w => rw [dictGet_append_of_some d _ k' w hd]
    | none =>
        rw [dictGet_append_of_none d _ k' hd]
        simp [dictGet, Ne.symm h]

theorem dictGet_dictUpdate_of_ne (d es : Attrs) (k : String)
    (h : ∀ kv ∈ es, kv.1 ≠ k) :
    dictGet (dictUpdate d es) k = dictGet d k := by
  induction es generalizing d with
  | nil => rfl
  | cons e rest ih =>
      show dictGet (dictUpdate (dictSet d e.1 e.2) rest) k = dictGet d k
      rw [ih (dictSet d e.1 e.2) (fun kv hkv => h kv (List.mem_cons_of_mem _ hkv))]
      exact dictGet_dictSet_ne d e.1 e.2 k
        (fun hke => (h e (List.mem_cons_self _ _)) hke.symm)

theorem mem_keys_dictSet (d : Attrs) (k v x : String)
    (h : x ∈ keys (dictSet d k v)) : x = k ∨ x ∈ keys d := by
  rcases List.mem_map.mp h with ⟨kv, hkv, hx⟩
  rcases mem_dictSet d k v kv hkv with rfl | ⟨hd, _⟩
  · exact Or.inl hx.symm
  · exact Or.inr (hx ▸ List.mem_map.mpr ⟨kv, hd, rfl⟩)

theorem mem_keys_dictUpdate (d es : Attrs) (x : String)
    (h : x ∈ keys (dictUpdate d es)) : x ∈ keys d ∨ x ∈ keys es := by
  induction es generalizing d with
  | nil => exact Or.inl h
  | cons e rest ih =>
      have h' : x ∈ keys (dictUpdate (dictSet d e.1 e.2) rest) := h
      rcases ih (dictSet d e.1 e.2) h' with hset | hrest
      · rcases mem_keys_dictSet d e.1 e.2 x hset with rfl | hd
        · exact Or.inr (by simp [keys])
        · exact Or.inl hd
      · exact Or.inr (by simp only [keys, List.map_cons, List.mem_cons]; right; exact hrest)

theorem mem_dictUpdate_of_mem_left (d es : Attrs) (kv : String × String)
    (h : kv ∈ d) (hks : ∀ e ∈ es, e.1 ≠ kv.1) : kv ∈ dictUpdate d es := by
  induction es generalizing d with
  | nil => exact h
  | cons e rest ih =>
      show kv ∈ dictUpdate (dictSet d e.1 e.2) rest
      refine ih (dictSet d e.1 e.2) ?_ (fun x hx => hks x (List.mem_cons_of_mem _ hx))
      exact mem_dictSet_of_ne d e.1 e.2 kv h
        (fun hk => (hks e (List.mem_cons_self _ _)) hk.symm)

theorem mem_dictUpdate_of_mem_right (d es : Attrs) (kv : String × String)
    (hnodup : (keys es).Nodup) (h : kv ∈ es) : kv ∈ dictUpdate d es := by
  induction es generalizing d with
  | nil => simp at h
  | cons e rest ih =>
      have hnd : (keys rest).Nodup := (List.nodup_cons.mp hnodup).2
      have hnotin : e.1 ∉ keys rest := (List.nodup_cons.mp hnodup).1
      rcases List.mem_cons.mp h with rfl | hrest
      · show kv ∈ dictUpdate (dictSet d kv.1 kv.2) rest
        refine mem_dictUpdate_of_mem_left _ rest kv ?_ ?_
        · have := self_mem_dictSet d kv.1 kv.2
          simpa using this
        · intro x hx hxk
          exact hnotin (hxk ▸ List.mem_map.mpr ⟨x, hx, rfl⟩)
      · exact ih (dictSet d e.1 e.2) hnd hrest

theorem keys_filter_nodup (d : Attrs) (p : String × String → Bool)
    (h : (keys d).Nodup) : (keys (d.filter p)).Nodup :=
  h.sublist ((List.filter_sublist d).map Prod.fst)

theorem dictGet_dictSetdefault_ne (d : Attrs) (k v k' : String) (h : k' ≠ k) :
    dictGet (dictSetdefault d k v) k' = dictGet d k' := by
  unfold dictSetdefault
  split
  · rfl
  · cases hd : dictGet d k' with
    | some w => rw [dictGet_append_of_some d _ k' w hd]
    | none =>
        rw [dictGet_append_of_none d _ k' hd]
        simp [dictGet, Ne.symm h]

theorem dictGet_dictSetdefault_of_none (d : Attrs) (k v : String)
    (h : dictGet d k = none) : dictGet (dictSetdefault d k v) k = some v := by
  unfold dictSetdefault
  rw [if_neg, dictGet_append_of_none d _ k h]
  · simp [dictGet]
  · simp only [Bool.not_eq_true]
    exact (any_key_eq_false_iff d k).mpr ((dictGet_eq_none_iff d k).mp h)

/-! ## Percent-encoding lemmas -/

theorem mem_concatMap {α β : Type} (f : α → List β) (l : List α) (b : β) :
    b ∈ concatMap f l ↔ ∃ a ∈ l, b ∈ f a := by
  induction l with
  | nil => simp [concatMap]
  | cons a rest ih => simp [concatMap, ih]

theorem hexUpper_unreserved (n : Nat) (h : n < 16) :
    isUnreserved (hexUpper n) = true := by
  unfold hexUpper
  interval_cases n <;> decide

theorem char_toNat_lt (c : Char) : c.toNat < 1114112 := by
  have h := c.valid
  rcases h with h | ⟨h1, h2⟩
  · exact lt_trans h (by norm_num)
  · exact h2

theorem utf8Bytes_lt (c : Char) : ∀ b ∈ utf8Bytes c, b < 256 := by
  intro b hb
  have hc := char_toNat_lt c
  unfold utf8Bytes at hb
  dsimp only at hb
  split at hb
  · simp at hb
    omega
  · split at hb
    · simp at hb
      rcases hb with rfl | rfl <;> omega
    · split at hb
      · simp at hb
        rcases hb with rfl | rfl | rfl <;> omega
      · simp at hb
        rcases hb with rfl | rfl | rfl | rfl <;> omega

theorem mem_percentByte (b : Nat) (ch : Char) (hb : b < 256)
    (h : ch ∈ percentByte b) : ch = '%' ∨ isUnreserved ch = true := by
  unfold percentByte at h
  simp only [List.mem_cons, List.mem_singleton, List.not_mem_nil, or_false] at h
  rcases h with rfl | rfl | rfl
  · exact Or.inl rfl
  · exact Or.inr (hexUpper_unreserved _ (by omega))
  · exact Or.inr (hexUpper_unreserved _ (by omega))

theorem encodedId_chars (s : String) :
    ∀ c ∈ (encodedId s).data, isUnreserved c = true ∨ c = '%' := by
  intro c hc
  have hc' : c ∈ concatMap encodeChar s.data := hc
  rcases (mem_concatMap encodeChar s.data c).mp hc' with ⟨a, _, hca⟩
  unfold encodeChar at hca
  split at hca
  · rename_i hres
    simp only [List.mem_singleton] at hca
    exact Or.inl (hca ▸ hres)
  · rcases (mem_concatMap percentByte (utf8Bytes a) c).mp hca with ⟨b, hbmem, hcb⟩
    rcases mem_percentByte b c (utf8Bytes_lt a b hbmem) hcb with h | h
    · exact Or.inr h
    · exact Or.inl h

theorem encodedId_no_slash (s : String) : ∀ c ∈ (encodedId s).data, c ≠ '/' := by
  intro c hc hslash
  rcases encodedId_chars s c hc with h | h
  · rw [hslash] at h
    exact absurd h (by decide)
  · rw [hslash] at h
    exact absurd h (by decide)

/-! ## Base64 lemmas -/

theorem b64index_b64char : ∀ n, n < 64 → b64index (b64char n) = some n := by decide

theorem keepB64_b64char : ∀ n, n < 64 → keepB64 (b64char n) = true := by decide

theorem b64char_ne_pad : ∀ n, n < 64 → b64char n ≠ '=' := by decide

theorem filter_keepB64_encode : ∀ (b : List Nat), (∀ x ∈ b, x < 256) →
    (b64encodeBytes b).filter keepB64 = b64encodeBytes b
  | [], _ => rfl
  | [a], h => by
      have ha : a < 256 := h a (by simp)
      rw [b64encodeBytes]
      rw [List.filter_cons_of_pos (keepB64_b64char _ (by omega)),
        List.filter_cons_of_pos (keepB64_b64char _ (by omega)),
        List.filter_cons_of_pos (by decide),
        List.filter_cons_of_pos (by decide), List.filter_nil]
  | [a, b], h => by
      have ha : a < 256 := h a (by simp)
      have hb : b < 256 := h b (by simp)
      rw [b64encodeBytes]
      rw [List.filter_cons_of_pos (keepB64_b64char _ (by omega)),
        List.filter_cons_of_pos (keepB64_b64char _ (by omega)),
        List.filter_cons_of_pos (keepB64_b64char _ (by omega)),
        List.filter_cons_of_pos (by decide), List.filter_nil]
  | a :: b :: c :: rest, h => by
      have ha : a < 256 := h a (by simp)
      have hb : b < 256 := h b (by simp)
      have hc : c < 256 := h c (by simp)
      have ih := filter_keepB64_encode rest (fun x hx => h x (by simp [hx]))
      rw [b64encodeBytes]
      rw [List.filter_cons_of_pos (keepB64_b64char _ (by omega)),
        List.filter_cons_of_pos (keepB64_b64char _ (by omega)),
        List.filter_cons_of_pos (keepB64_b64char _ (by omega)),
        List.filter_cons_of_pos (keepB64_b64char _ (by omega)), ih]

theorem b64decodeGroups_encode : ∀ (b : List Nat), (∀ x ∈ b, x < 256) →
    b64decodeGroups (b64encodeBytes b) = some b
  | [], _ => rfl
  | [a], h => by
      have ha : a < 256 := h a (by simp)
      have e0 := b64index_b64char (a / 4) (by omega)
      have e1 := b64index_b64char (a % 4 * 16) (by omega)
      rw [b64encodeBytes, b64decodeGroups]
      simp [e0, e1]
      omega
  | [a, b], h => by
      have ha : a < 256 := h a (by simp)
      have hb : b < 256 := h b (by simp)
      have e0 := b64index_b64char (a / 4) (by omega)
      have e1 := b64index_b64char (a % 4 * 16 + b / 16) (by omega)
      have e2 := b64index_b64char (b % 16 * 4) (by omega)
      have n2 := b64char_ne_pad (b % 16 * 4) (by omega)
      rw [b64encodeBytes, b64decodeGroups]
      simp [e0, e1, e2, n2]
      omega
  | a :: b :: c :: rest, h => by
      have ha : a < 256 := h a (by simp)
      have hb : b < 256 := h b (by simp)
      have hc : c < 256 := h c (by simp)
      have ih := b64decodeGroups_encode rest (fun x hx => h x (by simp [hx]))
      have e0 := b64index_b64char (a / 4) (by omega)
      have e1 := b64index_b64char (a % 4 * 16 + b / 16) (by omega)
      have e2 := b64index_b64char (b % 16 * 4 + c / 64) (by omega)
      have e3 := b64index_b64char (c % 64) (by omega)
      have n2 := b64char_ne_pad (b % 16 * 4 + c / 64) (by omega)
      have n3 := b64char_ne_pad (c % 64) (by omega)
      rw [b64encodeBytes, b64decodeGroups]
      simp [e0, e1, e2, e3, n2, n3, ih]
      omega

theorem b64decodeStr_encodeStr (b : List Nat) (h : ∀ x ∈ b, x < 256) :
    b64decodeStr (b64encodeStr b) = some b := by
  unfold b64decodeStr b64encodeStr
  show b64decodeGroups ((b64encodeBytes b).filter keepB64) = some b
  rw [filter_keepB64_encode b h, b64decodeGroups_encode b h]

/-! ## Concrete fixtures (servers, managers and objects used at concrete inputs) -/

/-- A client whose every call succeeds with the dictionary `d`. -/
def okGitlab (d : Attrs) : Gitlab where
  perPage := some 20
  getJsonResponse := fun _ => .ok d
  getRawResponse := fun _ => .ok [104, 105]
  postResponse := fun _ => .ok d
  putResponse := fun _ => .ok d
  deleteResponse := fun _ => .ok ()
  headResponse := fun _ => .ok d
  listResponse := fun _ _ => .ok (.asList [d])

/-- A fixed HTTP error reported by `errGitlab`. -/
def errHttp : HttpError := ⟨"404 Not found", 404, "resource not found"⟩

/-- A client whose every call fails with `errHttp`. -/
def errGitlab : Gitlab where
  perPage := none
  getJsonResponse := fun _ => .error errHttp
  getRawResponse := fun _ => .error errHttp
  postResponse := fun _ => .error errHttp
  putResponse := fun _ => .error errHttp
  deleteResponse := fun _ => .error errHttp
  headResponse := fun _ => .error errHttp
  listResponse := fun _ _ => .error errHttp

/-- Valid creation data for a project file. -/
def wCreateData : Attrs :=
  [("file_path", "app/key.rb"), ("branch", "main"), ("content", "Zm9v"),
   ("commit_message", "add key")]

/-! ## Claim theorems -/

/-- C1: for every operation wrapped by an `on_http_error` decorator, when
the underlying HTTP call reports an unexpected status, the operation raises
exactly the operation-specific error kind named in its decorator
(`GitlabGetError` for `ProjectFileManager.get`, `GitlabCreateError` for
`ProjectFileManager.create`, `GitlabDeleteError` for
`ProjectFileManager.delete`, `GitlabJobCancelError` for `ProjectJob.cancel`),
carrying the HTTP status and the response body, and no other error kind at
this layer. -/
theorem claim1_on_http_error_kinds
    (e : HttpError) (fmgr : ProjectFileManager) (job : ProjectJob)
    (fp ref branch cm : String) (data kwargs : Attrs)
    (hget : ∀ r, fmgr.gitlab.getJsonResponse r = .error e)
    (hpost : ∀ r, fmgr.gitlab.postResponse r = .error e)
    (hdel : ∀ r, fmgr.gitlab.deleteResponse r = .error e)
    (hjpost : ∀ r, job.manager.gitlab.postResponse r = .error e)
    (hval : projectFileCreateAttrs.missingAttrs data = [])
    (hfp : dictGet data "file_path" = some fp) :
    (fmgr.get fp ref kwargs).result =
        .error (.http .GitlabGetError e.errorMessage e.responseCode e.responseBody) ∧
    (fmgr.create data kwargs).result =
        .error (.http .GitlabCreateError e.errorMessage e.responseCode e.responseBody) ∧
    (fmgr.delete fp branch cm kwargs).result =
        .error (.http .GitlabDeleteError e.errorMessage e.responseCode e.responseBody) ∧
    (job.cancel kwargs).result =
        .error (.http .GitlabJobCancelError e.errorMessage e.responseCode e.responseBody) := by
  refine ⟨?_, ?_, ?_, ?_⟩
  · simp [ProjectFileManager.get, Gitlab.http_get, onHttpError, hget, Except.map]
  · simp [ProjectFileManager.create, hval, hfp, Gitlab.http_post, onHttpError,
      hpost, Except.map]
  · simp [ProjectFileManager.delete, Gitlab.http_delete, onHttpError, hdel, Except.map]
  · simp [ProjectJob.cancel, Gitlab.http_post, onHttpError, hjpost, Except.map]

/-- Witness for C1 at a concrete failing server. -/
theorem claim1_on_http_error_kinds_witness :
    ((ProjectFileManager.mk errGitlab "42").get "app/key.rb" "main" []).result =
        .error (.http .GitlabGetError errHttp.errorMessage errHttp.responseCode
          errHttp.responseBody) ∧
    ((ProjectFileManager.mk errGitlab "42").create wCreateData []).result =
        .error (.http .GitlabCreateError errHttp.errorMessage errHttp.responseCode
          errHttp.responseBody) ∧
    ((ProjectFileManager.mk errGitlab "42").delete "app/key.rb" "main" "rm" []).result =
        .error (.http .GitlabDeleteError errHttp.errorMessage errHttp.responseCode
          errHttp.responseBody) ∧
    ((ProjectJob.mk ⟨errGitlab, "42"⟩ [("id", "7")]).cancel []).result =
        .error (.http .GitlabJobCancelError errHttp.errorMessage errHttp.responseCode
          errHttp.responseBody) :=
  claim1_on_http_error_kinds errHttp ⟨errGitlab, "42"⟩ ⟨⟨errGitlab, "42"⟩, [("id", "7")]⟩
    "app/key.rb" "main" "main" "rm" wCreateData []
    (fun _ => rfl) (fun _ => rfl) (fun _ => rfl) (fun _ => rfl) (by decide) (by decide)

/-- C2: `ProjectJob.cancel` issues exactly one HTTP request, a `POST` to
`/projects/{project_id}/jobs/{job_id}/cancel` with the job id URL-encoded,
and returns the parsed JSON response as a dictionary. -/
theorem claim2_job_cancel_request
    (mgr : ProjectJobManager) (attrs kwargs d : Attrs) (jid : String)
    (hid : dictGet attrs "id" = some jid) :
    (ProjectJob.cancel ⟨mgr, attrs⟩ kwargs).requests =
      [⟨.POST, "/projects/" ++ mgr.projectId ++ "/jobs" ++ "/" ++ encodedId jid
          ++ "/cancel", none, none, kwargs⟩] ∧
    ((∀ r, mgr.gitlab.postResponse r = .ok d) →
      (ProjectJob.cancel ⟨mgr, attrs⟩ kwargs).result = .ok (.dict d)) := by
  constructor
  · simp [ProjectJob.cancel, Gitlab.http_post, ProjectJob.encodedIdStr, hid,
      ProjectJobManager.path]
  · intro h
    simp [ProjectJob.cancel, Gitlab.http_post, onHttpError, h, Except.map]

/-- Witness for C2 at a concrete job and server. -/
theorem claim2_job_cancel_request_witness :
    (ProjectJob.cancel ⟨⟨okGitlab [("status", "canceled")], "42"⟩, [("id", "7")]⟩ []).requests =
      [⟨.POST, "/projects/" ++ "42" ++ "/jobs" ++ "/" ++ encodedId "7" ++ "/cancel",
        none, none, []⟩] ∧
    (ProjectJob.cancel ⟨⟨okGitlab [("status", "canceled")], "42"⟩, [("id", "7")]⟩ []).result =
      .ok (.dict [("status", "canceled")]) :=
  ⟨(claim2_job_cancel_request ⟨okGitlab [("status", "canceled")], "42"⟩ [("id", "7")] []
      [("status", "canceled")] "7" (by decide)).1,
   (claim2_job_cancel_request ⟨okGitlab [("status", "canceled")], "42"⟩ [("id", "7")] []
      [("status", "canceled")] "7" (by decide)).2 (fun _ => rfl)⟩

/-- C3: `delete_in_bulk` issues a single `DELETE` to
`/projects/{project_id}/registry/repositories/{repository_id}/tags` whose
query data carries `name_regex_delete`, and of the extra keyword options
forwards only `keep_n`, `name_regex_keep` and `older_than` into the query
data. -/
theorem claim3_delete_in_bulk_request
    (mgr : ProjectRegistryTagManager) (nrd : String) (kwargs : Attrs) :
    (mgr.delete_in_bulk nrd kwargs).requests.length = 1 ∧
    ∀ req ∈ (mgr.delete_in_bulk nrd kwargs).requests,
      req.verb = .DELETE ∧
      req.path = "/projects/" ++ mgr.projectId ++ "/registry/repositories/" ++
        mgr.repositoryId ++ "/tags" ∧
      ∃ q, req.queryData = some q ∧
        dictGet q "name_regex_delete" = some nrd ∧
        (∀ kv ∈ q, kv.1 = "name_regex_delete" ∨ kv.1 ∈ bulkDeleteValidAttrs) ∧
        ((keys kwargs).Nodup →
          ∀ kv ∈ kwargs, kv.1 ∈ bulkDeleteValidAttrs → kv ∈ q) := by
  have hfilter : ∀ kv ∈ kwargs.filter (fun kv => bulkDeleteValidAttrs.contains kv.1),
      kv.1 ∈ bulkDeleteValidAttrs := by
    intro kv hkv
    simpa using (List.mem_filter.mp hkv).2
  constructor
  · rfl
  · intro req hreq
    simp only [ProjectRegistryTagManager.delete_in_bulk, Gitlab.http_delete,
      List.mem_singleton] at hreq
    subst hreq
    refine ⟨rfl, rfl, _, rfl, ?_, ?_, ?_⟩
    · rw [dictGet_dictUpdate_of_ne]
      · rfl
      · intro kv hkv heq
        have h1 := hfilter kv hkv
        rw [heq] at h1
        exact absurd h1 (by decide)
    · intro kv hkv
      have hk : kv.1 ∈ keys (dictUpdate [("name_regex_delete", nrd)]
          (kwargs.filter (fun kv => bulkDeleteValidAttrs.contains kv.1))) :=
        List.mem_map.mpr ⟨kv, hkv, rfl⟩
      rcases mem_keys_dictUpdate _ _ _ hk with h1 | h2
      · left
        simpa [keys] using h1
      · right
        rcases List.mem_map.mp h2 with ⟨kv', hkv', hfst⟩
        exact hfst ▸ hfilter kv' hkv'
    · intro hnodup kv hkv hvalid
      refine mem_dictUpdate_of_mem_right _ _ kv
        (keys_filter_nodup kwargs _ hnodup) ?_
      exact List.mem_filter.mpr ⟨hkv, by simpa using hvalid⟩

/-- The registry tag manager of the C3 witness. -/
def c3mgr : ProjectRegistryTagManager := ⟨okGitlab [], "42", "5"⟩

/-- The keyword options of the C3 witness: one forwarded, one not. -/
def c3kwargs : Attrs := [("keep_n", "5"), ("sudo", "root")]

/-- The request `delete_in_bulk` issues at the C3 witness input. -/
def c3req : HttpRequest :=
  ⟨.DELETE, "/projects/42/registry/repositories/5/tags",
   some [("name_regex_delete", ".*"), ("keep_n", "5")], none, c3kwargs⟩

/-- Witness for C3 at a concrete input. -/
theorem claim3_delete_in_bulk_request_witness :
    (c3mgr.delete_in_bulk ".*" c3kwargs).requests.length = 1 ∧
    c3req.verb = .DELETE ∧
    c3req.path = "/projects/" ++ "42" ++ "/registry/repositories/" ++ "5" ++ "/tags" :=
  ⟨(claim3_delete_in_bulk_request c3mgr ".*" c3kwargs).1,
   ((claim3_delete_in_bulk_request c3mgr ".*" c3kwargs).2 c3req (by decide)).1,
   ((claim3_delete_in_bulk_request c3mgr ".*" c3kwargs).2 c3req (by decide)).2.1⟩

/-- C4: `ProjectFileManager.raw` issues a single `GET` to
`{manager path}/{URL-encoded file path}/raw`, and includes `ref` as a query
parameter if and only if `ref` is not `None`. -/
theorem claim4_file_raw_request
    (mgr : ProjectFileManager) (fp : String) (ref : Option String) (kwargs : Attrs) :
    (mgr.raw fp ref kwargs).requests.length = 1 ∧
    ∀ req ∈ (mgr.raw fp ref kwargs).requests,
      req.verb = .GET ∧
      req.path = mgr.path ++ "/" ++ encodedId fp ++ "/raw" ∧
      (ref = none → req.queryData = none) ∧
      (∀ r, ref = some r → req.queryData = some [("ref", r)]) := by
  constructor
  · rfl
  · intro req hreq
    simp only [ProjectFileManager.raw, Gitlab.http_get_raw,
      List.mem_singleton] at hreq
    subst hreq
    refine ⟨rfl, rfl, ?_, ?_⟩
    · intro h
      simp [h]
    · intro r h
      simp [h]

/-- Witness for C4 at concrete inputs, one for each `ref` shape. -/
theorem claim4_file_raw_request_witness :
    ((ProjectFileManager.mk (okGitlab []) "42").raw "a/b.txt" (some "main") []).requests.length = 1 ∧
    (HttpRequest.queryData ⟨.GET, "/projects/42/repository/files/a%2Fb.txt/raw",
        some [("ref", "main")], none, []⟩) = some [("ref", "main")] ∧
    (HttpRequest.queryData ⟨.GET, "/projects/42/repository/files/a%2Fb.txt/raw",
        none, none, []⟩) = none :=
  ⟨(claim4_file_raw_request ⟨okGitlab [], "42"⟩ "a/b.txt" (some "main") []).1,
   ((claim4_file_raw_request ⟨okGitlab [], "42"⟩ "a/b.txt" (some "main") []).2
      _ (by decide)).2.2.2 "main" rfl,
   ((claim4_file_raw_request ⟨okGitlab [], "42"⟩ "a/b.txt" none []).2
      _ (by decide)).2.2.1 rfl⟩

/-- C5: `ProjectFileManager.create` validates that `file_path`, `branch`,
`content` and `commit_message` are present before issuing any request (no
request is sent on validation failure); on success it removes `file_path`
from the `POST` body, embeds it URL-encoded in the request path, and posts
the remaining data. -/
theorem claim5_file_create_validation
    (mgr : ProjectFileManager) (data kwargs : Attrs) (fp : String) :
    (projectFileCreateAttrs.missingAttrs data ≠ [] →
      (mgr.create data kwargs).requests = [] ∧
      (mgr.create data kwargs).result =
        .error (.missingAttributes (projectFileCreateAttrs.missingAttrs data))) ∧
    (projectFileCreateAttrs.missingAttrs data = [] →
      dictGet data "file_path" = some fp →
      (mgr.create data kwargs).requests =
        [⟨.POST, mgr.path ++ "/" ++ encodedId fp, none,
          some (dictErase data "file_path"), kwargs⟩] ∧
      "file_path" ∉ keys (dictErase data "file_path")) := by
  constructor
  · intro h
    constructor <;> simp [ProjectFileManager.create, h]
  · intro h hfp
    constructor
    · simp [ProjectFileManager.create, h, hfp, Gitlab.http_post]
    · intro hmem
      rcases List.mem_map.mp hmem with ⟨kv, hkv, hfst⟩
      have := (List.mem_filter.mp hkv).2
      rw [hfst] at this
      simp at this

/-- Witness for C5: a missing-attribute call sends nothing; a valid call
posts the data without `file_path`. -/
theorem claim5_file_create_validation_witness :
    ((ProjectFileManager.mk (okGitlab []) "42").create [("branch", "main")] []).requests = [] ∧
    ((ProjectFileManager.mk (okGitlab []) "42").create [("branch", "main")] []).result =
      .error (.missingAttributes
        (projectFileCreateAttrs.missingAttrs [("branch", "main")])) ∧
    ((ProjectFileManager.mk (okGitlab []) "42").create wCreateData []).requests =
      [⟨.POST, (ProjectFileManager.mk (okGitlab []) "42").path ++ "/" ++
          encodedId "app/key.rb", none,
        some (dictErase wCreateData "file_path"), []⟩] ∧
    "file_path" ∉ keys (dictErase wCreateData "file_path") :=
  ⟨((claim5_file_create_validation ⟨okGitlab [], "42"⟩ [("branch", "main")] [] "x").1
      (by decide)).1,
   ((claim5_file_create_validation ⟨okGitlab [], "42"⟩ [("branch", "main")] [] "x").1
      (by decide)).2,
   ((claim5_file_create_validation ⟨okGitlab [], "42"⟩ wCreateData [] "app/key.rb").2
      (by decide) (by decide)).1,
   ((claim5_file_create_validation ⟨okGitlab [], "42"⟩ wCreateData [] "app/key.rb").2
      (by decide) (by decide)).2⟩

/-- A client whose list calls answer with a lazy generator `g`. -/
def genGitlab (g : GitlabList) : Gitlab where
  perPage := none
  getJsonResponse := fun _ => .ok []
  getRawResponse := fun _ => .ok []
  postResponse := fun _ => .ok []
  putResponse := fun _ => .ok []
  deleteResponse := fun _ => .ok ()
  headResponse := fun _ => .ok []
  listResponse := fun _ _ => .ok (.asGen g)

/-- C6 counterexample: `ProjectJob.retry` returns the parsed JSON body as a
bare dictionary, not an instance of the managed object class or a wrapper,
refuting "the returned value is ... never a bare dictionary" at this
concrete input. -/
theorem claim6_counterexample :
    (ProjectJob.retry ⟨⟨okGitlab [("id", "8")], "42"⟩, [("id", "7")]⟩ []).result =
      .ok (.dict [("id", "8")]) ∧
    PyValue.isManagedWrapper (.dict [("id", "8")]) = false := by
  constructor
  · rfl
  · rfl

/-- C6 (amended): retrieval and creation of files wrap the JSON response in
the managed `ProjectFile` class, and `LDAPGroupManager.list` returns
`LDAPGroup` instances or a `RESTObjectList` wrapper, but
`ProjectFileManager.update` and `ProjectJob.retry` return the parsed JSON
dictionary unwrapped. -/
theorem claim6_amended_return_shapes
    (fmgr : ProjectFileManager) (lmgr : LDAPGroupManager) (job : ProjectJob)
    (d : Attrs) (fp ref : String) (newData : Option Attrs)
    (data kwargs : Attrs) (items : List Attrs) (g : GitlabList) (iterator : Bool)
    (hval : projectFileCreateAttrs.missingAttrs data = [])
    (hfp : dictGet data "file_path" = some fp)
    (hupd : projectFileUpdateAttrs.missingAttrs
      (dictSet (newData.getD []) "file_path" (encodedId fp)) = []) :
    ((∀ r, fmgr.gitlab.getJsonResponse r = .ok d) →
      (fmgr.get fp ref kwargs).result = .ok (.restObj "ProjectFile" d)) ∧
    ((∀ r, fmgr.gitlab.postResponse r = .ok d) →
      (fmgr.create data kwargs).result = .ok (.restObj "ProjectFile" d)) ∧
    ((∀ r it, lmgr.gitlab.listResponse r it = .ok (.asList items)) →
      (lmgr.list iterator kwargs).result = .ok (.restObjList "LDAPGroup" items)) ∧
    ((∀ r it, lmgr.gitlab.listResponse r it = .ok (.asGen g)) →
      (lmgr.list iterator kwargs).result = .ok (.restObjectGen "LDAPGroup" g)) ∧
    ((∀ r, fmgr.gitlab.putResponse r = .ok d) →
      (fmgr.update fp newData kwargs).result = .ok (.dict d)) ∧
    ((∀ r, job.manager.gitlab.postResponse r = .ok d) →
      (job.retry kwargs).result = .ok (.dict d)) := by
  refine ⟨?_, ?_, ?_, ?_, ?_, ?_⟩
  · intro h
    simp [ProjectFileManager.get, Gitlab.http_get, onHttpError, h, Except.map]
  · intro h
    simp [ProjectFileManager.create, hval, hfp, Gitlab.http_post, onHttpError,
      h, Except.map]
  · intro h
    simp [LDAPGroupManager.list, Gitlab.http_list, onHttpError, h, Except.map]
  · intro h
    simp [LDAPGroupManager.list, Gitlab.http_list, onHttpError, h, Except.map]
  · intro h
    simp [ProjectFileManager.update, hupd, Gitlab.http_put, onHttpError, h,
      Except.map]
  · intro h
    simp [ProjectJob.retry, Gitlab.http_post, onHttpError, h, Except.map]

/-- Witness for C6 (amended) at concrete clients. -/
theorem claim6_amended_return_shapes_witness :
    ((ProjectFileManager.mk (okGitlab [("id", "9")]) "42").get "a.txt" "main" []).result =
      .ok (.restObj "ProjectFile" [("id", "9")]) ∧
    ((LDAPGroupManager.mk (okGitlab [("cn", "grp")])).list false []).result =
      .ok (.restObjList "LDAPGroup" [[("cn", "grp")]]) ∧
    ((LDAPGroupManager.mk (genGitlab ⟨[[("cn", "grp")]]⟩)).list true []).result =
      .ok (.restObjectGen "LDAPGroup" ⟨[[("cn", "grp")]]⟩) ∧
    ((ProjectFileManager.mk (okGitlab [("id", "9")]) "42").update "a.txt"
        (some [("branch", "main"), ("content", "x"), ("commit_message", "m")]) []).result =
      .ok (.dict [("id", "9")]) :=
  ⟨(claim6_amended_return_shapes (ProjectFileManager.mk (okGitlab [("id", "9")]) "42")
      ⟨okGitlab [("cn", "grp")]⟩ ⟨⟨okGitlab [], "1"⟩, []⟩ [("id", "9")] "a.txt" "main"
      (some [("branch", "main"), ("content", "x"), ("commit_message", "m")])
      [("file_path", "a.txt"), ("branch", "main"), ("content", "x"),
       ("commit_message", "m")] [] [[("cn", "grp")]] ⟨[[("cn", "grp")]]⟩ false
      (by decide) (by decide) (by decide)).1 (fun _ => rfl),
   (claim6_amended_return_shapes (ProjectFileManager.mk (okGitlab [("id", "9")]) "42")
      ⟨okGitlab [("cn", "grp")]⟩ ⟨⟨okGitlab [], "1"⟩, []⟩ [("id", "9")] "a.txt" "main"
      (some [("branch", "main"), ("content", "x"), ("commit_message", "m")])
      [("file_path", "a.txt"), ("branch", "main"), ("content", "x"),
       ("commit_message", "m")] [] [[("cn", "grp")]] ⟨[[("cn", "grp")]]⟩ false
      (by decide) (by decide) (by decide)).2.2.1 (fun _ _ => rfl),
   (claim6_amended_return_shapes (ProjectFileManager.mk (okGitlab [("id", "9")]) "42")
      ⟨genGitlab ⟨[[("cn", "grp")]]⟩⟩ ⟨⟨okGitlab [], "1"⟩, []⟩ [("id", "9")] "a.txt" "main"
      (some [("branch", "main"), ("content", "x"), ("commit_message", "m")])
      [("file_path", "a.txt"), ("branch", "main"), ("content", "x"),
       ("commit_message", "m")] [] [[("cn", "grp")]] ⟨[[("cn", "grp")]]⟩ true
      (by decide) (by decide) (by decide)).2.2.2.1 (fun _ _ => rfl),
   (claim6_amended_return_shapes (ProjectFileManager.mk (okGitlab [("id", "9")]) "42")
      ⟨okGitlab [("cn", "grp")]⟩ ⟨⟨okGitlab [], "1"⟩, []⟩ [("id", "9")] "a.txt" "main"
      (some [("branch", "main"), ("content", "x"), ("commit_message", "m")])
      [("file_path", "a.txt"), ("branch", "main"), ("content", "x"),
       ("commit_message", "m")] [] [[("cn", "grp")]] ⟨[[("cn", "grp")]]⟩ false
      (by decide) (by decide) (by decide)).2.2.2.2.1 (fun _ => rfl)⟩

/-- C7 counterexample: `ProjectJob.cancel` obtains a JSON body from the
server yet leaves the object's cached attributes unchanged, so the cached
attributes do not mirror the last server response at this concrete input. -/
theorem claim7_counterexample :
    (ProjectJob.cancel ⟨⟨okGitlab [("id", "7"), ("status", "canceled")], "42"⟩,
        [("id", "7"), ("status", "running")]⟩ []).result =
      .ok (.dict [("id", "7"), ("status", "canceled")]) ∧
    (ProjectJob.cancel ⟨⟨okGitlab [("id", "7"), ("status", "canceled")], "42"⟩,
        [("id", "7"), ("status", "running")]⟩ []).self.attrs ≠
      [("id", "7"), ("status", "canceled")] := by
  constructor
  · rfl
  · decide

/-- C7 (amended): `ProjectJob.play` replaces the object's cached attributes
with the response body (and returns `None`), while `cancel` and `retry`
return the body as a dictionary and leave the object's attributes
untouched. -/
theorem claim7_amended_attr_updates
    (job : ProjectJob) (kwargs d : Attrs)
    (hpost : ∀ r, job.manager.gitlab.postResponse r = .ok d) :
    (job.play kwargs).self.attrs = d ∧
    (job.play kwargs).result = .ok .pyNone ∧
    (job.cancel kwargs).self.attrs = job.attrs ∧
    (job.cancel kwargs).result = .ok (.dict d) ∧
    (job.retry kwargs).self.attrs = job.attrs ∧
    (job.retry kwargs).result = .ok (.dict d) := by
  refine ⟨?_, ?_, ?_, ?_, ?_, ?_⟩
  · simp [ProjectJob.play, Gitlab.http_post, onHttpError, hpost]
  · simp [ProjectJob.play, Gitlab.http_post, onHttpError, hpost]
  · rfl
  · simp [ProjectJob.cancel, Gitlab.http_post, onHttpError, hpost, Except.map]
  · rfl
  · simp [ProjectJob.retry, Gitlab.http_post, onHttpError, hpost, Except.map]

/-- Witness for C7 (amended) at a concrete job and server. -/
theorem claim7_amended_attr_updates_witness :
    (ProjectJob.play ⟨⟨okGitlab [("status", "pending")], "42"⟩,
        [("status", "manual")]⟩ []).self.attrs = [("status", "pending")] ∧
    (ProjectJob.cancel ⟨⟨okGitlab [("status", "pending")], "42"⟩,
        [("status", "manual")]⟩ []).self.attrs = [("status", "manual")] :=
  ⟨(claim7_amended_attr_updates ⟨⟨okGitlab [("status", "pending")], "42"⟩,
      [("status", "manual")]⟩ [] [("status", "pending")] (fun _ => rfl)).1,
   (claim7_amended_attr_updates ⟨⟨okGitlab [("status", "pending")], "42"⟩,
      [("status", "manual")]⟩ [] [("status", "pending")] (fun _ => rfl)).2.2.1⟩

/-- `listData` only ever touches the `per_page` key. -/
theorem listData_get_ne (mgr : LDAPGroupManager) (kwargs : Attrs) (k : String)
    (hk : k ≠ "per_page") :
    dictGet (mgr.listData kwargs) k = dictGet kwargs k := by
  unfold LDAPGroupManager.listData
  cases mgr.gitlab.perPage with
  | none => rfl
  | some n =>
      dsimp only
      by_cases hn : n ≠ 0
      · rw [if_pos hn]
        exact dictGet_dictSetdefault_ne kwargs _ _ k hk
      · rw [if_neg hn]

/-- `listData` defaults `per_page` to the client's truthy setting when the
caller gave none. -/
theorem listData_get_per_page (mgr : LDAPGroupManager) (kwargs : Attrs) (n : Nat)
    (hpp : mgr.gitlab.perPage = some n) (hn : n ≠ 0)
    (hnone : dictGet kwargs "per_page" = none) :
    dictGet (mgr.listData kwargs) "per_page" = some (toString n) := by
  unfold LDAPGroupManager.listData
  rw [hpp]
  dsimp only
  rw [if_pos hn]
  exact dictGet_dictSetdefault_of_none kwargs _ _ hnone

/-- C8: `LDAPGroupManager.list` requests `/ldap/{provider}/groups` when a
provider option is supplied and `/ldap/groups` otherwise; when the client
has a (truthy) `per_page` setting and the caller gave none, `per_page`
defaults to the client's value; a plain list answer from the HTTP layer
becomes a list of `LDAPGroup` objects, any other answer a `RESTObjectList`
wrapper. -/
theorem claim8_ldap_list
    (mgr : LDAPGroupManager) (iterator : Bool) (kwargs : Attrs)
    (p : String) (n : Nat) (items : List Attrs) (g : GitlabList) :
    (dictGet kwargs "provider" = some p →
      ∀ req ∈ (mgr.list iterator kwargs).requests,
        req.path = "/ldap/" ++ p ++ "/groups") ∧
    (dictGet kwargs "provider" = none →
      ∀ req ∈ (mgr.list iterator kwargs).requests, req.path = "/ldap/groups") ∧
    (mgr.gitlab.perPage = some n → n ≠ 0 → dictGet kwargs "per_page" = none →
      ∀ req ∈ (mgr.list iterator kwargs).requests,
        dictGet req.kwargs "per_page" = some (toString n)) ∧
    ((∀ r it, mgr.gitlab.listResponse r it = .ok (.asList items)) →
      (mgr.list iterator kwargs).result = .ok (.restObjList "LDAPGroup" items)) ∧
    ((∀ r it, mgr.gitlab.listResponse r it = .ok (.asGen g)) →
      (mgr.list iterator kwargs).result = .ok (.restObjectGen "LDAPGroup" g)) := by
  have hprov := listData_get_ne mgr kwargs "provider" (by decide)
  refine ⟨?_, ?_, ?_, ?_, ?_⟩
  · intro hp req hreq
    simp only [LDAPGroupManager.list, Gitlab.http_list, hprov, hp,
      List.mem_singleton] at hreq
    subst hreq
    rfl
  · intro hp req hreq
    simp only [LDAPGroupManager.list, Gitlab.http_list, hprov, hp,
      List.mem_singleton] at hreq
    subst hreq
    rfl
  · intro hpp hn hnone req hreq
    simp only [LDAPGroupManager.list, Gitlab.http_list, List.mem_singleton] at hreq
    subst hreq
    exact listData_get_per_page mgr kwargs n hpp hn hnone
  · intro h
    simp [LDAPGroupManager.list, Gitlab.http_list, onHttpError, h, Except.map]
  · intro h
    simp [LDAPGroupManager.list, Gitlab.http_list, onHttpError, h, Except.map]

/-- A client with `per_page = 50` whose list calls succeed with one item. -/
def c8Gitlab : Gitlab :=
  { okGitlab [("cn", "grp")] with perPage := some 50 }

/-- Witness for C8 at concrete inputs: provider path, default `per_page`
and result shape. -/
theorem claim8_ldap_list_witness :
    (HttpRequest.path ⟨.GET, "/ldap/main/groups", none, none,
        [("provider", "main"), ("per_page", "50")]⟩) = "/ldap/" ++ "main" ++ "/groups" ∧
    dictGet (HttpRequest.kwargs ⟨.GET, "/ldap/main/groups", none, none,
        [("provider", "main"), ("per_page", "50")]⟩) "per_page" = some (toString 50) ∧
    ((LDAPGroupManager.mk c8Gitlab).list false [("provider", "main")]).result =
      .ok (.restObjList "LDAPGroup" [[("cn", "grp")]]) :=
  ⟨(claim8_ldap_list ⟨c8Gitlab⟩ false [("provider", "main")] "main" 50
      [[("cn", "grp")]] ⟨[]⟩).1 (by decide) _ (by decide),
   (claim8_ldap_list ⟨c8Gitlab⟩ false [("provider", "main")] "main" 50
      [[("cn", "grp")]] ⟨[]⟩).2.2.1 rfl (by decide) (by decide) _ (by decide),
   (claim8_ldap_list ⟨c8Gitlab⟩ false [("provider", "main")] "main" 50
      [[("cn", "grp")]] ⟨[]⟩).2.2.2.1 (fun _ _ => rfl)⟩

/-- C9: every `ProjectFileManager` operation taking a file path (`get`,
`head`, `create`, `update`, `delete`, `raw`, `blame`) embeds the path into
the request URL via `EncodedId`, and the encoded form consists only of
unreserved characters and `%`, so a raw `/` (or any other special
character) never appears unencoded in the path. -/
theorem claim9_file_paths_encoded
    (mgr : ProjectFileManager) (fp ref branch cm : String) (refOpt : Option String)
    (data kwargs : Attrs) (newData : Option Attrs) :
    (∀ req ∈ (mgr.get fp ref kwargs).requests,
      req.path = mgr.path ++ "/" ++ encodedId fp) ∧
    (∀ req ∈ (mgr.head fp ref kwargs).requests,
      req.path = mgr.path ++ "/" ++ encodedId fp) ∧
    (dictGet data "file_path" = some fp →
      ∀ req ∈ (mgr.create data kwargs).requests,
        req.path = mgr.path ++ "/" ++ encodedId fp) ∧
    (∀ req ∈ (mgr.update fp newData kwargs).requests,
      req.path = mgr.path ++ "/" ++ encodedId fp) ∧
    (∀ req ∈ (mgr.delete fp branch cm kwargs).requests,
      req.path = mgr.path ++ "/" ++ encodedId fp) ∧
    (∀ req ∈ (mgr.raw fp refOpt kwargs).requests,
      req.path = mgr.path ++ "/" ++ encodedId fp ++ "/raw") ∧
    (∀ req ∈ (mgr.blame fp ref kwargs).requests,
      req.path = mgr.path ++ "/" ++ encodedId fp ++ "/blame") ∧
    (∀ c ∈ (encodedId fp).data, isUnreserved c = true ∨ c = '%') ∧
    (∀ c ∈ (encodedId fp).data, c ≠ '/') := by
  refine ⟨?_, ?_, ?_, ?_, ?_, ?_, ?_, encodedId_chars fp, encodedId_no_slash fp⟩
  · intro req hreq
    simp only [ProjectFileManager.get, Gitlab.http_get, List.mem_singleton] at hreq
    subst hreq
    rfl
  · intro req hreq
    simp only [ProjectFileManager.head, Gitlab.http_head, List.mem_singleton] at hreq
    subst hreq
    rfl
  · intro hfp req hreq
    simp only [ProjectFileManager.create] at hreq
    split at hreq
    · simp at hreq
    · rw [hfp] at hreq
      simp only [Gitlab.http_post, List.mem_singleton] at hreq
      subst hreq
      rfl
  · intro req hreq
    simp only [ProjectFileManager.update] at hreq
    split at hreq
    · simp at hreq
    · simp only [Gitlab.http_put, List.mem_singleton] at hreq
      subst hreq
      rfl
  · intro req hreq
    simp only [ProjectFileManager.delete, Gitlab.http_delete,
      List.mem_singleton] at hreq
    subst hreq
    rfl
  · intro req hreq
    simp only [ProjectFileManager.raw, Gitlab.http_get_raw,
      List.mem_singleton] at hreq
    subst hreq
    rfl
  · intro req hreq
    simp only [ProjectFileManager.blame, Gitlab.http_list,
      List.mem_singleton] at hreq
    subst hreq
    rfl

/-- Witness for C9 at a file path containing a slash. -/
theorem claim9_file_paths_encoded_witness :
    (HttpRequest.path ⟨.GET, "/projects/42/repository/files/src%2Fmain.py", none,
        none, [("ref", "main")]⟩) =
      (ProjectFileManager.mk (okGitlab []) "42").path ++ "/" ++ encodedId "src/main.py" ∧
    ('/' ∉ (encodedId "src/main.py").data) :=
  ⟨(claim9_file_paths_encoded ⟨okGitlab [], "42"⟩ "src/main.py" "main" "b" "c"
      none [] [] none).1 _ (by decide),
   fun h => (claim9_file_paths_encoded ⟨okGitlab [], "42"⟩ "src/main.py" "main" "b" "c"
      none [] [] none).2.2.2.2.2.2.2.2 '/' h rfl⟩

/-- C10: `ProjectFile.decode` returns the base64 decoding of the object's
`content` attribute: for every byte string `b`, a `ProjectFile` whose
content is the base64 encoding of `b` decodes back to `b`, and `decode`
leaves the object unchanged. -/
theorem claim10_decode_roundtrip
    (b : List Nat) (pf : ProjectFile) (hb : ∀ x ∈ b, x < 256)
    (hc : dictGet pf.attrs "content" = some (b64encodeStr b)) :
    pf.decode = (some b, pf) := by
  unfold ProjectFile.decode
  rw [hc]
  simp [b64decodeStr_encodeStr b hb]

/-- Witness for C10: the encoding of the bytes of "Hi!" decodes back. -/
theorem claim10_decode_roundtrip_witness :
    (ProjectFile.mk [("content", b64encodeStr [72, 105, 33])]).decode =
      (some [72, 105, 33], ProjectFile.mk [("content", b64encodeStr [72, 105, 33])]) :=
  claim10_decode_roundtrip [72, 105, 33] ⟨[("content", b64encodeStr [72, 105, 33])]⟩
    (by decide) (by decide)

end Spec2Proof
